import Mathlib

/-
Verification of the two numeric cores of jmtyszka/freesurfer-editing-utils:

* fs_merge_control_points.py — tolerance-based union of two Freesurfer
  control-point files (load_cps, the merge loop in main, the useRealRAS
  flag check), and
* fs_inter_surface_distance.py — the nearest-neighbour distance field and
  directed/symmetric Hausdorff distances in compare_editors (lines 184-199),
  including the semantics of the two library routines it calls
  (sklearn.metrics.pairwise_distances_argmin_min and
  scipy.spatial.distance.directed_hausdorff).

Modelling conventions.  Coordinates are rationals.  Every Euclidean
distance in the Python code appears only inside order comparisons
(d < d_min, d_min > d_tol, argmin, max, the scipy loop tests) or is
reported as a final value; since x ↦ sqrt x is a strictly monotone
bijection on the non-negative reals, the embedding carries SQUARED
distances throughout and squares every constant the code compares
against (tolerance 0.01 → 1/10000, the initial d_min = 1e30 → 10^60).
All comparisons and equalities between distances in the code are
therefore reproduced exactly.  Fallible paths (sys.exit, uncaught
Python exceptions, library input validation) are modelled with Except.
-/

/-- A 3-D point, one row of a control-point or surface coordinate array. -/
structure Point where
  x : ℚ
  y : ℚ
  z : ℚ
deriving DecidableEq

/-- Default point used with List.getD when stating index facts. -/
def P0 : Point := ⟨0, 0, 0⟩

/-- Squared Euclidean distance, the square of np.linalg.norm (p - q). -/
def dist_sq (p q : Point) : ℚ :=
  (p.x - q.x) ^ 2 + (p.y - q.y) ^ 2 + (p.z - q.z) ^ 2

/-- Square of the minimum separation d_tol = 0.01 for points to be
considered distinct (fs_merge_control_points.py line 139). -/
def d_tol_sq : ℚ := 1 / 10000

/-- Square of the initial running minimum d_min = 1e30
(fs_merge_control_points.py line 143). -/
def d_init_sq : ℚ := 10 ^ 60

/-- Inner loop of the merge in main (lines 147-150): for p1 in cp1,
d = norm (p1 - p2); if d < d_min then d_min = d. -/
def innerMin (cp1 : List Point) (p2 : Point) (dm : ℚ) : ℚ :=
  cp1.foldl (fun m p1 => if dist_sq p1 p2 < m then dist_sq p1 p2 else m) dm

/-- Outer merge loop of fs_merge_control_points.py main (lines 145-153):
for each p2 of cp2 run the inner loop on the carried d_min, then
cps = np.vstack([cps, p2]) iff d_min > d_tol.  When cps is still the
empty (0,)-shaped array loaded from an empty first file, np.vstack of it
with a (3,)-shaped point raises an uncaught ValueError (mismatched
dimensions), modelled here as the error case. -/
def mergeLoop (cp1 : List Point) :
    List Point → List Point × ℚ → Except String (List Point × ℚ)
  | [], acc => .ok acc
  | p2 :: rest, acc =>
    if d_tol_sq < innerMin cp1 p2 acc.2 then
      match acc.1 with
      | [] => .error "ValueError: all the input array dimensions except for the concatenation axis must match exactly"
      | _ :: _ => mergeLoop cp1 rest (acc.1 ++ [p2], innerMin cp1 p2 acc.2)
    else mergeLoop cp1 rest (acc.1, innerMin cp1 p2 acc.2)

/-- The merge of fs_merge_control_points.py main (lines 142-153):
cps = cp1.copy(); d_min = 1e30 (squared here); then the loop above over
cp2.  Returns the merged point list, or the uncaught np.vstack
ValueError. -/
def mergePoints (cp1 cp2 : List Point) : Except String (List Point) :=
  match mergeLoop cp1 cp2 (cp1, d_init_sq) with
  | .error e => .error e
  | .ok acc => .ok acc.1

/-- In-memory contents of a loaded control-point file as used by main:
the coordinate rows and the useRealRAS flag. -/
structure ControlPointFile where
  cps : List Point
  use_real_ras : Bool
deriving DecidableEq

/-- The merge entry point at the level of main (lines 134-162): exit(2)
when the useRealRAS flags differ, otherwise the merged points together
with the common flag passed to save_cps, or the uncaught loop error. -/
def merge (f1 f2 : ControlPointFile) : Except String (List Point × Bool) :=
  if ¬ (f1.use_real_ras = f2.use_real_ras) then
    .error "useRealRAS flags differ between files - exiting"
  else
    match mergePoints f1.cps f2.cps with
    | .error e => .error e
    | .ok cps => .ok (cps, f1.use_real_ras)

-- ### Basic distance lemmas

lemma dist_sq_nonneg (p q : Point) : 0 ≤ dist_sq p q := by
  unfold dist_sq; positivity

lemma dist_sq_self (p : Point) : dist_sq p p = 0 := by
  simp [dist_sq]

lemma dist_sq_comm (p q : Point) : dist_sq p q = dist_sq q p := by
  unfold dist_sq; ring

-- ### Fold-min algebra over ℚ

lemma foldl_if_lt (l : List ℚ) :
    ∀ a : ℚ, l.foldl (fun m d => if d < m then d else m) a = l.foldl min a := by
  induction l with
  | nil => intro a; rfl
  | cons x xs ih =>
    intro a
    have hx : (if x < a then x else a) = min a x := by
      by_cases h : x < a
      · simp [h, min_eq_right (le_of_lt h)]
      · simp [h, min_eq_left (le_of_not_lt h)]
    simp only [List.foldl_cons, hx, ih]

lemma foldl_min_le_init (l : List ℚ) : ∀ a : ℚ, l.foldl min a ≤ a := by
  induction l with
  | nil => intro a; exact le_refl a
  | cons x xs ih =>
    intro a
    exact le_trans (ih (min a x)) (min_le_left a x)

lemma foldl_min_le_mem (l : List ℚ) :
    ∀ a x : ℚ, x ∈ l → l.foldl min a ≤ x := by
  induction l with
  | nil => intro a x hx; cases hx
  | cons y ys ih =>
    intro a x hx
    rcases List.mem_cons.mp hx with h | h
    · subst h
      exact le_trans (foldl_min_le_init ys (min a x)) (min_le_right a x)
    · exact ih (min a y) x h

lemma foldl_min_init_or_mem (l : List ℚ) :
    ∀ a : ℚ, l.foldl min a = a ∨ ∃ x ∈ l, l.foldl min a = x := by
  induction l with
  | nil => intro a; exact Or.inl rfl
  | cons y ys ih =>
    intro a
    rcases ih (min a y) with h | ⟨x, hx, hfx⟩
    · by_cases hya : y < a
      · right
        exact ⟨y, List.mem_cons_self y ys, by rw [List.foldl_cons, h, min_eq_right (le_of_lt hya)]⟩
      · left
        rw [List.foldl_cons, h, min_eq_left (le_of_not_lt hya)]
    · right
      exact ⟨x, List.mem_cons_of_mem y hx, hfx⟩

lemma foldl_min_min (l : List ℚ) :
    ∀ a b : ℚ, l.foldl min (min a b) = min a (l.foldl min b) := by
  induction l with
  | nil => intro a b; rfl
  | cons x xs ih =>
    intro a b
    rw [List.foldl_cons, List.foldl_cons, min_assoc, ih]

-- ### Minimum distance from a point to a non-empty point list

/-- True minimum (squared) Euclidean distance from p to a point list
(0 on the empty list, which is never used with meaning). -/
def minDistSq (p : Point) : List Point → ℚ
  | [] => 0
  | q :: qs => (qs.map (dist_sq p)).foldl min (dist_sq p q)

lemma minDistSq_le (p : Point) (l : List Point) (q : Point) (hq : q ∈ l) :
    minDistSq p l ≤ dist_sq p q := by
  cases l with
  | nil => cases hq
  | cons r rs =>
    rcases List.mem_cons.mp hq with h | h
    · subst h
      exact foldl_min_le_init _ _
    · exact foldl_min_le_mem _ _ _ (List.mem_map_of_mem (dist_sq p) h)

lemma minDistSq_mem (p : Point) (l : List Point) (hl : l ≠ []) :
    ∃ q ∈ l, minDistSq p l = dist_sq p q := by
  cases l with
  | nil => exact absurd rfl hl
  | cons r rs =>
    rcases foldl_min_init_or_mem (rs.map (dist_sq p)) (dist_sq p r) with h | ⟨x, hx, hfx⟩
    · exact ⟨r, List.mem_cons_self r rs, h⟩
    · rcases List.mem_map.mp hx with ⟨q, hq, rfl⟩
      exact ⟨q, List.mem_cons_of_mem r hq, hfx⟩

lemma minDistSq_nonneg (p : Point) (l : List Point) : 0 ≤ minDistSq p l := by
  cases l with
  | nil => exact le_refl 0
  | cons r rs =>
    rcases minDistSq_mem p (r :: rs) (by simp) with ⟨q, _, hq⟩
    rw [hq]
    exact dist_sq_nonneg p q

lemma minDistSq_eq_zero_of_mem (p : Point) (l : List Point) (hp : p ∈ l) :
    minDistSq p l = 0 :=
  le_antisymm (by simpa [dist_sq_self] using minDistSq_le p l p hp)
    (minDistSq_nonneg p l)

-- ### Characterization of the merge inner loop

lemma innerMin_nil (p : Point) (dm : ℚ) : innerMin [] p dm = dm := rfl

lemma innerMin_eq_foldl_min (l : List Point) (p : Point) (dm : ℚ) :
    innerMin l p dm = (l.map (dist_sq p)).foldl min dm := by
  unfold innerMin
  have h1 : l.foldl (fun m p1 => if dist_sq p1 p < m then dist_sq p1 p else m) dm
      = (l.map (fun p1 => dist_sq p1 p)).foldl (fun m d => if d < m then d else m) dm := by
    rw [List.foldl_map]
  have h2 : l.map (fun p1 => dist_sq p1 p) = l.map (dist_sq p) := by
    apply List.map_congr_left
    intro a _
    exact dist_sq_comm a p
  rw [h1, h2, foldl_if_lt]

lemma innerMin_cons (q : Point) (qs : List Point) (p : Point) (dm : ℚ) :
    innerMin (q :: qs) p dm = min dm (minDistSq p (q :: qs)) := by
  rw [innerMin_eq_foldl_min, List.map_cons, List.foldl_cons, foldl_min_min]
  rfl

lemma innerMin_le_mem (l : List Point) (p : Point) (dm : ℚ) (q : Point)
    (hq : q ∈ l) : innerMin l p dm ≤ dist_sq p q := by
  cases l with
  | nil => cases hq
  | cons r rs =>
    rw [innerMin_cons]
    exact le_trans (min_le_right _ _) (minDistSq_le p (r :: rs) q hq)

-- ### Merge loop invariants

lemma mergeLoop_len_bounds (cp1 : List Point) (cp2 : List Point) :
    ∀ (acc : List Point) (dm : ℚ) (r : List Point × ℚ),
      mergeLoop cp1 cp2 (acc, dm) = .ok r →
      acc.length ≤ r.1.length ∧ r.1.length ≤ acc.length + cp2.length := by
  induction cp2 with
  | nil =>
    intro acc dm r hok
    injection hok with h
    subst h
    exact ⟨le_refl _, by simp⟩
  | cons p ps ih =>
    intro acc dm r hok
    unfold mergeLoop at hok
    by_cases h : d_tol_sq < innerMin cp1 p dm
    · simp only [h, if_pos, if_true] at hok
      cases hacc : acc with
      | nil => rw [hacc] at hok; exact Except.noConfusion hok
      | cons a as =>
        rw [hacc] at hok
        rcases ih ((a :: as) ++ [p]) (innerMin cp1 p dm) r hok with ⟨h1, h2⟩
        subst hacc
        constructor
        · exact le_trans (by simp) h1
        · calc r.1.length ≤ ((a :: as) ++ [p]).length + ps.length := h2
            _ = (a :: as).length + (p :: ps).length := by simp; omega
    · simp only [h, if_neg, if_false] at hok
      rcases ih acc (innerMin cp1 p dm) r hok with ⟨h1, h2⟩
      exact ⟨h1, le_trans h2 (by simp)⟩

lemma mergeLoop_noop_of_subset (cp1 : List Point) (cp2 : List Point)
    (hsub : ∀ p ∈ cp2, p ∈ cp1) :
    ∀ (acc : List Point) (dm : ℚ),
      ∃ dm2, mergeLoop cp1 cp2 (acc, dm) = .ok (acc, dm2) := by
  induction cp2 with
  | nil => intro acc dm; exact ⟨dm, rfl⟩
  | cons p ps ih =>
    intro acc dm
    have hp : p ∈ cp1 := hsub p (List.mem_cons_self p ps)
    have hle : innerMin cp1 p dm ≤ 0 := by
      have := innerMin_le_mem cp1 p dm p hp
      rwa [dist_sq_self] at this
    have hcond : ¬ d_tol_sq < innerMin cp1 p dm := by
      intro hlt
      have : (0 : ℚ) < d_tol_sq := by norm_num [d_tol_sq]
      linarith
    unfold mergeLoop
    simp only [hcond, if_neg, if_false]
    exact ih (fun q hq => hsub q (List.mem_cons_of_mem p hq)) acc (innerMin cp1 p dm)

lemma mergePoints_self (A : List Point) : mergePoints A A = .ok A := by
  unfold mergePoints
  rcases mergeLoop_noop_of_subset A A (fun p hp => hp) A d_init_sq with ⟨dm2, h⟩
  rw [h]

/-- The merge loop never reaches the failing np.vstack while the running
point list is non-empty, and appending keeps it non-empty, so with a
non-empty accumulator it completes and acts as the pure fold of its own
step. -/
lemma mergeLoop_ok_eq (cp1 : List Point) :
    ∀ (cp2 : List Point) (acc : List Point) (dm : ℚ), acc ≠ [] →
      mergeLoop cp1 cp2 (acc, dm)
        = .ok (cp2.foldl
            (fun (st : List Point × ℚ) p =>
              (if d_tol_sq < innerMin cp1 p st.2 then st.1 ++ [p] else st.1,
                innerMin cp1 p st.2))
            (acc, dm)) := by
  intro cp2
  induction cp2 with
  | nil => intro acc dm hacc; rfl
  | cons p ps ih =>
    intro acc dm hacc
    unfold mergeLoop
    rw [List.foldl_cons]
    by_cases h : d_tol_sq < innerMin cp1 p dm
    · simp only [h, if_pos, if_true]
      cases acc with
      | nil => exact absurd rfl hacc
      | cons a as =>
        exact ih ((a :: as) ++ [p]) (innerMin cp1 p dm) (by simp)
    · simp only [h, if_neg, if_false]
      exact ih acc (innerMin cp1 p dm) hacc

/-- C9: merging a control-point file with itself appends no point of the
second copy: every point of the second copy has a zero distance to its
own copy in the first set, so the running minimum sits at zero (below
the tolerance) at every membership check, the failing np.vstack branch
is never reached, and the merged list is exactly the first copy, with
the same count. -/
theorem merge_self_count (A : List Point) :
    ∃ r, mergePoints A A = Except.ok r ∧ r.length = A.length :=
  ⟨A, mergePoints_self A, rfl⟩

-- ### C1: merge count bounds

/-- C1 counterexample: with agreeing RAS flags and the fixed tolerance,
A = [(0,0,0)] and B = [(0,0,0), (100,0,0)] merge successfully to a
single point — the first point of B drives the never-reset running
minimum to 0, so the far-away second point of B is not appended —
refuting the lower bound count(merge(A,B)) >= max (count A) (count B)
claimed for the code. -/
theorem merge_count_lower_bound_cex :
    merge ⟨[⟨0, 0, 0⟩], true⟩ ⟨[⟨0, 0, 0⟩, ⟨100, 0, 0⟩], true⟩
      = .ok ([⟨0, 0, 0⟩], true) ∧
    ¬ (([(⟨0, 0, 0⟩ : Point)]).length ≥
      max ([(⟨0, 0, 0⟩ : Point)]).length
        ([⟨0, 0, 0⟩, (⟨100, 0, 0⟩ : Point)]).length) := by
  constructor
  · norm_num [merge, mergePoints, mergeLoop, innerMin, dist_sq, d_tol_sq,
      d_init_sq]
  · decide

/-- C1 amended: for control-point files with agreeing RAS flags, when
the first point set is non-empty (or the second is empty — otherwise
the program dies at np.vstack with a ValueError instead of producing a
merged set), the merge succeeds and its count lies between count(A)
(the result starts as a copy of A and only appends) and
count(A) + count(B) (each point of B is appended at most once); the
claimed lower bound max(count A, count B) does not hold on the code. -/
theorem merge_count_bounds (f1 f2 : ControlPointFile)
    (hflag : f1.use_real_ras = f2.use_real_ras)
    (hne : f1.cps ≠ [] ∨ f2.cps = []) :
    ∃ r, merge f1 f2 = .ok r ∧
      f1.cps.length ≤ r.1.length ∧
      r.1.length ≤ f1.cps.length + f2.cps.length := by
  have hsucc : ∃ acc2, mergeLoop f1.cps f2.cps (f1.cps, d_init_sq) = .ok acc2 := by
    rcases hne with h1 | h2
    · exact ⟨_, mergeLoop_ok_eq f1.cps f2.cps f1.cps d_init_sq h1⟩
    · rw [h2]
      exact ⟨(f1.cps, d_init_sq), rfl⟩
  obtain ⟨acc2, hacc⟩ := hsucc
  rcases mergeLoop_len_bounds f1.cps f2.cps f1.cps d_init_sq acc2 hacc with ⟨hb1, hb2⟩
  refine ⟨(acc2.1, f1.use_real_ras), ?_, hb1, hb2⟩
  unfold merge mergePoints
  simp [hflag, hacc]

/-- C1 amended, witness at a concrete input. -/
theorem merge_count_bounds_witness :
    ∃ r, merge ⟨[⟨0, 0, 0⟩], true⟩ ⟨[⟨0, 0, 0⟩, ⟨100, 0, 0⟩], true⟩ = .ok r ∧
      ([(⟨0, 0, 0⟩ : Point)]).length ≤ r.1.length ∧
      r.1.length ≤ ([(⟨0, 0, 0⟩ : Point)]).length +
        ([⟨0, 0, 0⟩, (⟨100, 0, 0⟩ : Point)]).length :=
  merge_count_bounds ⟨[⟨0, 0, 0⟩], true⟩ ⟨[⟨0, 0, 0⟩, ⟨100, 0, 0⟩], true⟩ rfl
    (Or.inl (by decide))

-- ### C2: the construction rule, stated as in the specification

/-- Construction rule in the words of the specification (§4.2) and claim
C2: start from a copy of the points of A; for each point p of B in
order, fold the minimum distance from p to the ORIGINAL points of A into
a single running-minimum scalar that is initialized once (to 1e30,
squared here) and never reset between successive points of B, and append
p exactly when that running minimum exceeds the tolerance at the time of
the check. -/
def mergeSpecC2 (A B : List Point) : List Point :=
  (B.foldl
    (fun (st : List Point × ℚ) p =>
      let m := match A with
        | [] => st.2
        | _ :: _ => min st.2 (minDistSq p A)
      (if d_tol_sq < m then st.1 ++ [p] else st.1, m))
    (A, d_init_sq)).1

/-- C2 counterexample: for an empty first point set and a non-empty
second one, the claimed construction yields the points of B (the running
minimum stays at its huge initial value, so every point of B passes the
threshold test), but the code instead dies at the first append —
np.vstack of the (0,)-shaped cps with a (3,)-shaped point raises an
uncaught ValueError — so the merge operation does not follow the
construction there. -/
theorem merge_construction_empty_cex :
    mergePoints [] [(⟨0, 0, 0⟩ : Point)]
      = .error "ValueError: all the input array dimensions except for the concatenation axis must match exactly" ∧
    mergeSpecC2 [] [(⟨0, 0, 0⟩ : Point)] = [(⟨0, 0, 0⟩ : Point)] := by
  constructor
  · norm_num [mergePoints, mergeLoop, innerMin, d_tol_sq, d_init_sq]
  · norm_num [mergeSpecC2, d_tol_sq, d_init_sq]

/-- C2 amended: whenever the first point set is non-empty (or the second
is empty), the merge loop of the code succeeds and is exactly the
construction described by the specification: per point of B, the minimum
distance to the original points of A is folded into one running-minimum
scalar, never reset, and the point is appended iff that scalar exceeds
the tolerance at the time of the check; for empty A and non-empty B the
code instead raises the np.vstack ValueError at the first append. -/
theorem merge_construction_eq_spec (A B : List Point)
    (h : A ≠ [] ∨ B = []) :
    mergePoints A B = Except.ok (mergeSpecC2 A B) := by
  rcases h with hA | hB
  · unfold mergePoints
    rw [mergeLoop_ok_eq A B A d_init_sq hA]
    show Except.ok (B.foldl
        (fun (st : List Point × ℚ) p =>
          (if d_tol_sq < innerMin A p st.2 then st.1 ++ [p] else st.1,
            innerMin A p st.2))
        (A, d_init_sq)).1 = Except.ok (mergeSpecC2 A B)
    have hfold : (B.foldl
        (fun (st : List Point × ℚ) p =>
          (if d_tol_sq < innerMin A p st.2 then st.1 ++ [p] else st.1,
            innerMin A p st.2))
        (A, d_init_sq)).1 = mergeSpecC2 A B := by
      unfold mergeSpecC2
      congr 1
      apply List.foldl_ext
      intro st p _
      cases A with
      | nil => rw [innerMin_nil]
      | cons q qs => rw [innerMin_cons]
    rw [hfold]
  · rw [hB]
    rfl

/-- C2 amended, witness at a concrete non-empty first set. -/
theorem merge_construction_eq_spec_witness :
    mergePoints [(⟨1, 1, 1⟩ : Point)] [(⟨2, 2, 2⟩ : Point)]
      = Except.ok (mergeSpecC2 [(⟨1, 1, 1⟩ : Point)] [(⟨2, 2, 2⟩ : Point)]) :=
  merge_construction_eq_spec [⟨1, 1, 1⟩] [⟨2, 2, 2⟩] (Or.inl (by decide))

-- ### fs_inter_surface_distance.py: nearest-neighbour field and Hausdorff

/-- Scan of the remaining target points performed by np.argmin semantics:
the running best (index, squared distance) is replaced only on a STRICT
improvement, so the first (lowest-index) occurrence of the minimum wins. -/
def argminMinGo (p : Point) : List Point → ℕ → ℕ × ℚ → ℕ × ℚ
  | [], _, best => best
  | q :: qs, i, best =>
    argminMinGo p qs (i + 1)
      (if dist_sq p q < best.2 then (i, dist_sq p q) else best)

/-- Nearest target for one source point over the non-empty target list
q :: qs: index and squared distance of the closest target, lowest index
on ties. -/
def nearest1 (p q : Point) (qs : List Point) : ℕ × ℚ :=
  argminMinGo p qs 1 (0, dist_sq p q)

/-- sklearn.metrics.pairwise_distances_argmin_min (call at line 184 of
fs_inter_surface_distance.py): per source point, the index of and the
distance (squared here) to its closest target point; sklearn input
validation raises ValueError when either array has 0 samples. -/
def pairwise_distances_argmin_min (X Y : List Point) :
    Except String (List ℕ × List ℚ) :=
  match Y with
  | [] => .error "ValueError: Found array with 0 sample(s)"
  | q :: qs =>
    match X with
    | [] => .error "ValueError: Found array with 0 sample(s)"
    | _ :: _ =>
      .ok (X.map (fun p => (nearest1 p q qs).1),
           X.map (fun p => (nearest1 p q qs).2))

/-- np.max over a 1-D array (line 189): ValueError on a zero-size array,
otherwise the fold of max over the entries. -/
def npMax : List ℚ → Except String ℚ
  | [] => .error "ValueError: zero-size array reduction has no identity"
  | d :: ds => .ok (ds.foldl max d)

/-- Inner loop of scipy.spatial.distance.directed_hausdorff over the
second point set: cmin starts at infinity (none); break (none result)
as soon as some squared distance is below cmax, otherwise the completed
running minimum. -/
def hdInner (x : Point) (cmax : ℚ) : List Point → Option ℚ → Option (Option ℚ)
  | [], cmin => some cmin
  | y :: ys, cmin =>
    if dist_sq x y < cmax then none
    else
      hdInner x cmax ys
        (match cmin with
         | none => some (dist_sq x y)
         | some c => if dist_sq x y < c then some (dist_sq x y) else some c)

/-- Outer loop of scipy directed_hausdorff: cmax is raised to cmin when
the inner loop completed without a break, cmin is finite, and
cmin >= cmax. -/
def hdOuter (ys : List Point) : List Point → ℚ → ℚ
  | [], cmax => cmax
  | x :: xs, cmax =>
    match hdInner x cmax ys none with
    | none => hdOuter ys xs cmax
    | some none => hdOuter ys xs cmax
    | some (some c) => hdOuter ys xs (if cmax ≤ c then c else cmax)

/-- scipy.spatial.distance.directed_hausdorff (call at line 194),
returning the squared directed Hausdorff distance from u to v (scipy
reports its square root); the seed-0 shuffle scipy applies is omitted:
the loop is proved below to compute the exact directed distance for any
point order, so the shuffled value is the same. -/
def directed_hausdorff (u v : List Point) : ℚ := hdOuter v u 0

/-- Core of compare_editors (lines 184-199): the per-vertex
nearest-distance field from pairwise_distances_argmin_min, forward
Hausdorff distance d12 = np.max of that field, reverse Hausdorff
distance d21 = directed_hausdorff(coords2, coords1), symmetric
dsym = max(d12, d21). -/
def compareDistances (coords1 coords2 : List Point) :
    Except String (ℚ × ℚ × ℚ) :=
  match pairwise_distances_argmin_min coords1 coords2 with
  | .error e => .error e
  | .ok (_, dmin12) =>
    match npMax dmin12 with
    | .error e => .error e
    | .ok d12 =>
      let d21 := directed_hausdorff coords2 coords1
      .ok (d12, d21, max d12 d21)

/-- Exact max-over-sources of min-over-targets squared distance, the
reference value both routines are proved to compute. -/
def maxMinSq (A B : List Point) : ℚ :=
  (A.map (fun p => minDistSq p B)).foldl max 0

lemma list_getD_mem {α : Type} (l : List α) (n : ℕ) (d : α)
    (h : n < l.length) : l.getD n d ∈ l := by
  induction l generalizing n with
  | nil => simp at h
  | cons a l ih =>
    cases n with
    | zero => exact List.mem_cons_self a l
    | succ m =>
      simp only [List.getD_cons_succ]
      exact List.mem_cons_of_mem a (ih m (by simpa using h))

-- ### Correctness of the argmin scan (first minimum wins)

lemma argminMinGo_correct (p : Point) (qs : List Point) :
    ∀ (i0 bi : ℕ) (bd : ℚ),
      (argminMinGo p qs i0 (bi, bd)).2 ≤ bd ∧
      (∀ k, k < qs.length →
        (argminMinGo p qs i0 (bi, bd)).2 ≤ dist_sq p (qs.getD k P0)) ∧
      (argminMinGo p qs i0 (bi, bd) = (bi, bd) ∨
        ∃ k, k < qs.length ∧
          (argminMinGo p qs i0 (bi, bd)).1 = i0 + k ∧
          (argminMinGo p qs i0 (bi, bd)).2 = dist_sq p (qs.getD k P0) ∧
          (argminMinGo p qs i0 (bi, bd)).2 < bd ∧
          ∀ j, j < k →
            (argminMinGo p qs i0 (bi, bd)).2 < dist_sq p (qs.getD j P0)) := by
  induction qs with
  | nil =>
    intro i0 bi bd
    refine ⟨le_refl _, ?_, Or.inl rfl⟩
    intro k hk
    simp at hk
  | cons q qs ih =>
    intro i0 bi bd
    by_cases hd : dist_sq p q < bd
    · have hgo : argminMinGo p (q :: qs) i0 (bi, bd)
          = argminMinGo p qs (i0 + 1) (i0, dist_sq p q) := by
        simp [argminMinGo, hd]
      rcases ih (i0 + 1) i0 (dist_sq p q) with ⟨hA1, hA2, hB⟩
      rw [hgo]
      refine ⟨le_trans hA1 (le_of_lt hd), ?_, ?_⟩
      · intro k hk
        cases k with
        | zero => simpa using hA1
        | succ m =>
          simp only [List.getD_cons_succ]
          exact hA2 m (by simpa using hk)
      · rcases hB with hb | ⟨k, hk, h1, h2, h3, h4⟩
        · right
          refine ⟨0, by simp, ?_, ?_, ?_, ?_⟩
          · rw [hb]; simp
          · rw [hb]; simp
          · rw [hb]; exact hd
          · intro j hj; omega
        · right
          refine ⟨k + 1, by simpa using hk, by omega, by simpa using h2,
            lt_trans h3 hd, ?_⟩
          intro j hj
          cases j with
          | zero => simpa using lt_of_lt_of_le h3 (le_refl _)
          | succ m =>
            simp only [List.getD_cons_succ]
            exact h4 m (by omega)
    · have hgo : argminMinGo p (q :: qs) i0 (bi, bd)
          = argminMinGo p qs (i0 + 1) (bi, bd) := by
        simp [argminMinGo, hd]
      have hbd : bd ≤ dist_sq p q := le_of_not_lt hd
      rcases ih (i0 + 1) bi bd with ⟨hA1, hA2, hB⟩
      rw [hgo]
      refine ⟨hA1, ?_, ?_⟩
      · intro k hk
        cases k with
        | zero => simpa using le_trans hA1 hbd
        | succ m =>
          simp only [List.getD_cons_succ]
          exact hA2 m (by simpa using hk)
      · rcases hB with hb | ⟨k, hk, h1, h2, h3, h4⟩
        · exact Or.inl hb
        · right
          refine ⟨k + 1, by simpa using hk, by omega, by simpa using h2, h3, ?_⟩
          intro j hj
          cases j with
          | zero => simpa using lt_of_lt_of_le h3 hbd
          | succ m =>
            simp only [List.getD_cons_succ]
            exact h4 m (by omega)

lemma nearest1_min_le (p q : Point) (qs : List Point) :
    ∀ k, k < (q :: qs).length →
      (nearest1 p q qs).2 ≤ dist_sq p ((q :: qs).getD k P0) := by
  rcases argminMinGo_correct p qs 1 0 (dist_sq p q) with ⟨hA1, hA2, _⟩
  intro k hk
  cases k with
  | zero => simpa [nearest1] using hA1
  | succ m =>
    simp only [List.getD_cons_succ]
    exact hA2 m (by simpa using hk)

lemma nearest1_attained (p q : Point) (qs : List Point) :
    (nearest1 p q qs).1 < (q :: qs).length ∧
    (nearest1 p q qs).2 = dist_sq p ((q :: qs).getD (nearest1 p q qs).1 P0) := by
  rcases argminMinGo_correct p qs 1 0 (dist_sq p q) with ⟨_, _, hB⟩
  unfold nearest1
  rcases hB with hb | ⟨k, hk, h1, h2, _, _⟩
  · rw [hb]
    exact ⟨by simp, by simp⟩
  · constructor
    · rw [h1]
      simp only [List.length_cons]
      omega
    · rw [h1, h2, Nat.add_comm 1 k]
      simp

lemma nearest1_lowest_index (p q : Point) (qs : List Point) :
    ∀ j, j < (nearest1 p q qs).1 →
      (nearest1 p q qs).2 < dist_sq p ((q :: qs).getD j P0) := by
  rcases argminMinGo_correct p qs 1 0 (dist_sq p q) with ⟨_, _, hB⟩
  unfold nearest1
  rcases hB with hb | ⟨k, hk, h1, h2, h3, h4⟩
  · rw [hb]
    intro j hj
    omega
  · intro j hj
    rw [h1] at hj
    cases j with
    | zero => simpa using h3
    | succ m =>
      simp only [List.getD_cons_succ]
      exact h4 m (by omega)

lemma nearest1_snd_eq_minDistSq (p q : Point) (qs : List Point) :
    (nearest1 p q qs).2 = minDistSq p (q :: qs) := by
  rcases nearest1_attained p q qs with ⟨hlt, heq⟩
  apply le_antisymm
  · rcases minDistSq_mem p (q :: qs) (by simp) with ⟨w, hw, hwe⟩
    rcases List.mem_iff_get.mp hw with ⟨⟨k, hk⟩, rfl⟩
    rw [hwe]
    have := nearest1_min_le p q qs k hk
    rwa [List.getD_eq_getElem (q :: qs) P0 hk] at this
  · rw [heq]
    exact minDistSq_le p (q :: qs) _ (list_getD_mem _ _ _ hlt)

-- ### Correctness of the scipy directed-Hausdorff loop

lemma hdInner_break (x : Point) (cmax : ℚ) (ys : List Point)
    (h : ∃ y ∈ ys, dist_sq x y < cmax) :
    ∀ cm, hdInner x cmax ys cm = none := by
  induction ys with
  | nil => rcases h with ⟨y, hy, _⟩; cases hy
  | cons y ys ih =>
    intro cm
    by_cases h0 : dist_sq x y < cmax
    · simp [hdInner, h0]
    · rcases h with ⟨w, hw, hlt⟩
      rcases List.mem_cons.mp hw with rfl | hw'
      · exact absurd hlt h0
      · simp only [hdInner, h0, if_neg, if_false]
        exact ih ⟨w, hw', hlt⟩ _

lemma hdInner_run (x : Point) (cmax : ℚ) (ys : List Point)
    (h : ∀ y ∈ ys, ¬ dist_sq x y < cmax) :
    ∀ c : ℚ, hdInner x cmax ys (some c)
      = some (some ((ys.map (dist_sq x)).foldl min c)) := by
  induction ys with
  | nil => intro c; rfl
  | cons y ys ih =>
    intro c
    have h0 : ¬ dist_sq x y < cmax := h y (List.mem_cons_self y ys)
    have hupd : (if dist_sq x y < c then some (dist_sq x y) else some c)
        = some (min c (dist_sq x y)) := by
      by_cases hc : dist_sq x y < c
      · simp [hc, min_eq_right (le_of_lt hc)]
      · simp [hc, min_eq_left (le_of_not_lt hc)]
    simp only [hdInner, h0, if_neg, if_false, hupd, List.map_cons, List.foldl_cons]
    exact ih (fun z hz => h z (List.mem_cons_of_mem y hz)) (min c (dist_sq x y))

lemma hdInner_complete (x : Point) (cmax : ℚ) (ys : List Point)
    (hys : ys ≠ []) (h : ∀ z ∈ ys, ¬ dist_sq x z < cmax) :
    hdInner x cmax ys none = some (some (minDistSq x ys)) := by
  cases ys with
  | nil => exact absurd rfl hys
  | cons y ys =>
    have h0 : ¬ dist_sq x y < cmax := h y (List.mem_cons_self y ys)
    simp only [hdInner, h0, if_neg, if_false]
    exact hdInner_run x cmax ys (fun z hz => h z (List.mem_cons_of_mem y hz))
      (dist_sq x y)

lemma hdOuter_eq (ys : List Point) (hys : ys ≠ []) :
    ∀ (xs : List Point) (cmax : ℚ),
      hdOuter ys xs cmax = (xs.map (fun x => minDistSq x ys)).foldl max cmax := by
  intro xs
  induction xs with
  | nil => intro cmax; rfl
  | cons x xs ih =>
    intro cmax
    by_cases hm : minDistSq x ys < cmax
    · rcases minDistSq_mem x ys hys with ⟨q, hq, hqe⟩
      have hbrk : hdInner x cmax ys none = none :=
        hdInner_break x cmax ys ⟨q, hq, by rw [← hqe]; exact hm⟩ none
      simp only [hdOuter, hbrk, List.map_cons, List.foldl_cons,
        max_eq_left (le_of_lt hm)]
      exact ih cmax
    · have hall : ∀ z ∈ ys, ¬ dist_sq x z < cmax := by
        intro z hz hlt
        exact hm (lt_of_le_of_lt (minDistSq_le x ys z hz) hlt)
      have hcm : cmax ≤ minDistSq x ys := le_of_not_lt hm
      have hcmp : hdInner x cmax ys none = some (some (minDistSq x ys)) :=
        hdInner_complete x cmax ys hys hall
      simp only [hdOuter, hcmp, hcm, if_pos, List.map_cons, List.foldl_cons,
        max_eq_right hcm]
      exact ih (minDistSq x ys)

lemma directed_hausdorff_eq (u v : List Point) (hv : v ≠ []) :
    directed_hausdorff u v = maxMinSq u v := by
  unfold directed_hausdorff maxMinSq
  exact hdOuter_eq v hv u 0

-- ### The compare_editors pipeline on non-empty inputs

lemma compare_eq_maxMin (A B : List Point) (hA : A ≠ []) (hB : B ≠ []) :
    compareDistances A B
      = .ok (maxMinSq A B, maxMinSq B A, max (maxMinSq A B) (maxMinSq B A)) := by
  cases A with
  | nil => exact absurd rfl hA
  | cons a as =>
    cases B with
    | nil => exact absurd rfl hB
    | cons b bs =>
      have hmap : (a :: as).map (fun p => (nearest1 p b bs).2)
          = (a :: as).map (fun p => minDistSq p (b :: bs)) := by
        apply List.map_congr_left
        intro p _
        exact nearest1_snd_eq_minDistSq p b bs
      have hpair : pairwise_distances_argmin_min (a :: as) (b :: bs)
          = .ok ((a :: as).map (fun p => (nearest1 p b bs).1),
                 (a :: as).map (fun p => minDistSq p (b :: bs))) := by
        simp only [pairwise_distances_argmin_min, hmap]
      have hmax0 : max 0 (minDistSq a (b :: bs)) = minDistSq a (b :: bs) :=
        max_eq_right (minDistSq_nonneg a (b :: bs))
      have hd12 : npMax ((a :: as).map (fun p => minDistSq p (b :: bs)))
          = .ok (maxMinSq (a :: as) (b :: bs)) := by
        simp only [List.map_cons, npMax, maxMinSq, List.foldl_cons, hmax0]
      have hd21 : directed_hausdorff (b :: bs) (a :: as)
          = maxMinSq (b :: bs) (a :: as) :=
        directed_hausdorff_eq (b :: bs) (a :: as) (by simp)
      simp only [compareDistances, hpair, hd12, hd21]

lemma list_getD_map {α β : Type} (f : α → β) (l : List α) (k : ℕ)
    (da : α) (db : β) (h : k < l.length) :
    (l.map f).getD k db = f (l.getD k da) := by
  rw [List.getD_eq_getElem (l.map f) db (by simpa using h),
    List.getD_eq_getElem l da h, List.getElem_map]

lemma foldl_max_zero (l : List ℚ) (h : ∀ x ∈ l, x = 0) :
    l.foldl max 0 = 0 := by
  induction l with
  | nil => rfl
  | cons x xs ih =>
    have hx : x = 0 := h x (List.mem_cons_self x xs)
    rw [List.foldl_cons, hx, max_self]
    exact ih (fun z hz => h z (List.mem_cons_of_mem x hz))

lemma maxMinSq_self (A : List Point) : maxMinSq A A = 0 := by
  unfold maxMinSq
  apply foldl_max_zero
  intro x hx
  rcases List.mem_map.mp hx with ⟨p, hp, rfl⟩
  exact minDistSq_eq_zero_of_mem p A hp

-- ### Claim theorems for the surface-distance engine

/-- C5: for non-empty source and target point sets, the
nearest-distances call returns, per source point, a non-negative
distance equal to the true minimum Euclidean distance to some target
point (squared representation), together with the index of the closest
target, and ties resolve to the lowest target index (every strictly
smaller index is strictly farther); the result is a pure function of
the inputs, so repeated runs agree. -/
theorem nearest_distances_correct (srcs tgts : List Point)
    (hs : srcs ≠ []) (ht : tgts ≠ []) :
    ∃ idxs dists,
      pairwise_distances_argmin_min srcs tgts = .ok (idxs, dists) ∧
      idxs.length = srcs.length ∧ dists.length = srcs.length ∧
      ∀ k, k < srcs.length →
        0 ≤ dists.getD k 0 ∧
        (∀ q ∈ tgts, dists.getD k 0 ≤ dist_sq (srcs.getD k P0) q) ∧
        idxs.getD k 0 < tgts.length ∧
        dist_sq (srcs.getD k P0) (tgts.getD (idxs.getD k 0) P0)
          = dists.getD k 0 ∧
        ∀ j, j < idxs.getD k 0 →
          dists.getD k 0 < dist_sq (srcs.getD k P0) (tgts.getD j P0) := by
  cases srcs with
  | nil => exact absurd rfl hs
  | cons s ss =>
    cases tgts with
    | nil => exact absurd rfl ht
    | cons q qs =>
      refine ⟨(s :: ss).map (fun p => (nearest1 p q qs).1),
        (s :: ss).map (fun p => (nearest1 p q qs).2), rfl, by simp, by simp, ?_⟩
      intro k hk
      have hdk : ((s :: ss).map (fun p => (nearest1 p q qs).2)).getD k 0
          = (nearest1 ((s :: ss).getD k P0) q qs).2 :=
        list_getD_map _ _ k P0 0 hk
      have hik : ((s :: ss).map (fun p => (nearest1 p q qs).1)).getD k 0
          = (nearest1 ((s :: ss).getD k P0) q qs).1 :=
        list_getD_map _ _ k P0 0 hk
      rw [hdk, hik]
      have hsnd := nearest1_snd_eq_minDistSq ((s :: ss).getD k P0) q qs
      refine ⟨?_, ?_, (nearest1_attained _ q qs).1,
        (nearest1_attained _ q qs).2.symm, nearest1_lowest_index _ q qs⟩
      · rw [hsnd]
        exact minDistSq_nonneg _ _
      · intro w hw
        rw [hsnd]
        exact minDistSq_le _ _ w hw

/-- C5 witness: the theorem applied at a concrete source/target pair. -/
theorem nearest_distances_correct_witness :
    ∃ idxs dists,
      pairwise_distances_argmin_min [(⟨0, 0, 0⟩ : Point)]
        [(⟨1, 0, 0⟩ : Point), (⟨0, 2, 0⟩ : Point)] = .ok (idxs, dists) ∧
      idxs.length = ([(⟨0, 0, 0⟩ : Point)]).length ∧
      dists.length = ([(⟨0, 0, 0⟩ : Point)]).length ∧
      ∀ k, k < ([(⟨0, 0, 0⟩ : Point)]).length →
        0 ≤ dists.getD k 0 ∧
        (∀ w ∈ [(⟨1, 0, 0⟩ : Point), (⟨0, 2, 0⟩ : Point)],
          dists.getD k 0 ≤ dist_sq (([(⟨0, 0, 0⟩ : Point)]).getD k P0) w) ∧
        idxs.getD k 0 < ([(⟨1, 0, 0⟩ : Point), (⟨0, 2, 0⟩ : Point)]).length ∧
        dist_sq (([(⟨0, 0, 0⟩ : Point)]).getD k P0)
          (([(⟨1, 0, 0⟩ : Point), (⟨0, 2, 0⟩ : Point)]).getD (idxs.getD k 0) P0)
          = dists.getD k 0 ∧
        ∀ j, j < idxs.getD k 0 →
          dists.getD k 0 < dist_sq (([(⟨0, 0, 0⟩ : Point)]).getD k P0)
            (([(⟨1, 0, 0⟩ : Point), (⟨0, 2, 0⟩ : Point)]).getD j P0) :=
  nearest_distances_correct [⟨0, 0, 0⟩] [⟨1, 0, 0⟩, ⟨0, 2, 0⟩]
    (by decide) (by decide)

/-- C6: for non-empty point sets the Hausdorff computation succeeds and
its symmetric component is exactly max(forward, reverse), hence at least
each of them. -/
theorem hausdorff_symmetric_eq_max (A B : List Point)
    (hA : A ≠ []) (hB : B ≠ []) :
    ∃ t : ℚ × ℚ × ℚ, compareDistances A B = .ok t ∧
      t.2.2 = max t.1 t.2.1 ∧ t.1 ≤ t.2.2 ∧ t.2.1 ≤ t.2.2 :=
  ⟨_, compare_eq_maxMin A B hA hB, rfl, le_max_left _ _, le_max_right _ _⟩

/-- C6 witness at concrete non-empty inputs. -/
theorem hausdorff_symmetric_eq_max_witness :
    ∃ t : ℚ × ℚ × ℚ,
      compareDistances [(⟨0, 0, 0⟩ : Point)] [(⟨1, 0, 0⟩ : Point)] = .ok t ∧
      t.2.2 = max t.1 t.2.1 ∧ t.1 ≤ t.2.2 ∧ t.2.1 ≤ t.2.2 :=
  hausdorff_symmetric_eq_max [⟨0, 0, 0⟩] [⟨1, 0, 0⟩] (by decide) (by decide)

/-- C7: swapping the two point sets swaps the roles of the two routines:
the forward distance (np.max of the sklearn nearest-distance field) of
(A,B) equals the reverse distance (scipy directed_hausdorff) of (B,A)
and vice versa — both routines compute the exact directed Hausdorff
value. -/
theorem hausdorff_forward_reverse_swap (A B : List Point)
    (hA : A ≠ []) (hB : B ≠ []) :
    ∃ fAB rAB sAB fBA rBA sBA,
      compareDistances A B = .ok (fAB, rAB, sAB) ∧
      compareDistances B A = .ok (fBA, rBA, sBA) ∧
      fAB = rBA ∧ rAB = fBA :=
  ⟨_, _, _, _, _, _, compare_eq_maxMin A B hA hB,
    compare_eq_maxMin B A hB hA, rfl, rfl⟩

/-- C7 witness at concrete non-empty inputs. -/
theorem hausdorff_forward_reverse_swap_witness :
    ∃ fAB rAB sAB fBA rBA sBA,
      compareDistances [(⟨0, 0, 0⟩ : Point)]
        [(⟨1, 0, 0⟩ : Point), (⟨0, 2, 0⟩ : Point)] = .ok (fAB, rAB, sAB) ∧
      compareDistances [(⟨1, 0, 0⟩ : Point), (⟨0, 2, 0⟩ : Point)]
        [(⟨0, 0, 0⟩ : Point)] = .ok (fBA, rBA, sBA) ∧
      fAB = rBA ∧ rAB = fBA :=
  hausdorff_forward_reverse_swap [⟨0, 0, 0⟩] [⟨1, 0, 0⟩, ⟨0, 2, 0⟩]
    (by decide) (by decide)

/-- C8: comparing a non-empty point set against itself yields forward,
reverse and symmetric Hausdorff distances all zero. -/
theorem hausdorff_self_zero (A : List Point) (hA : A ≠ []) :
    compareDistances A A = .ok (0, 0, 0) := by
  rw [compare_eq_maxMin A A hA hA, maxMinSq_self]
  simp

/-- C8 witness at a concrete non-empty input. -/
theorem hausdorff_self_zero_witness :
    compareDistances [(⟨3, 4, 5⟩ : Point)] [(⟨3, 4, 5⟩ : Point)] = .ok (0, 0, 0) :=
  hausdorff_self_zero [⟨3, 4, 5⟩] (by decide)

/-- C10: with an empty point set on either side the Hausdorff
computation stops with an explicit error (the input validation of the
nearest-distance call at line 184) and never returns a distance triple,
so no NaN or sentinel value stands in for a distance. -/
theorem hausdorff_empty_error (A B : List Point) (h : A = [] ∨ B = []) :
    (∃ msg, compareDistances A B = .error msg) ∧
      ∀ t, compareDistances A B ≠ .ok t := by
  have herr : compareDistances A B
      = .error "ValueError: Found array with 0 sample(s)" := by
    rcases h with rfl | rfl
    · cases B <;> rfl
    · cases A <;> rfl
  refine ⟨⟨_, herr⟩, ?_⟩
  intro t ht
  rw [herr] at ht
  cases ht

/-- C10 witness: empty first input against a concrete point. -/
theorem hausdorff_empty_error_witness :
    (∃ msg, compareDistances [] [(⟨0, 0, 0⟩ : Point)] = .error msg) ∧
      ∀ t, compareDistances [] [(⟨0, 0, 0⟩ : Point)] ≠ .ok t :=
  hausdorff_empty_error [] [⟨0, 0, 0⟩] (Or.inl rfl)

-- ### load_cps: the control-point text parser (fs_merge_control_points.py)

/-- Python str.strip(): drop whitespace from both ends. -/
def pyStrip (s : String) : String :=
  String.mk
    (((s.toList.dropWhile Char.isWhitespace).reverse.dropWhile
      Char.isWhitespace).reverse)

def splitSpaceAux : List Char → List Char → List (List Char)
  | [], acc => [acc.reverse]
  | c :: cs, acc =>
    if c == ' ' then acc.reverse :: splitSpaceAux cs []
    else splitSpaceAux cs (c :: acc)

/-- Python str.split(' ') with the explicit single-space separator:
splits at every space, keeping empty fields between adjacent spaces. -/
def pySplitSpace (s : String) : List String :=
  (splitSpaceAux s.toList []).map String.mk

def leadMatch : List Char → List Char → Bool
  | [], _ => true
  | _ :: _, [] => false
  | p :: ps, c :: cs => p == c && leadMatch ps cs

def substrAux (pat : List Char) : List Char → Bool
  | [] => pat.isEmpty
  | c :: cs => leadMatch pat (c :: cs) || substrAux pat cs

/-- The Python substring test: pat in s. -/
def substrOf (pat s : String) : Bool := substrAux pat.toList s.toList

/-- Python bool() applied to a string: True exactly when the string is
non-empty — bool of the literal string 0 is True. -/
def pyBool (s : String) : Bool := !(s == "")

def pyDigits : List Char → ℕ
  | [] => 0
  | c :: cs => (c.toNat - Char.toNat '0') * 10 ^ cs.length + pyDigits cs

/-- Python int() on a string: an optional sign followed by digits
(Python also tolerates surrounding whitespace and digit-group
underscores, irrelevant for the inputs considered here); None models
the ValueError raised otherwise. -/
def pyInt? (s : String) : Option Int :=
  match s.toList with
  | [] => none
  | '-' :: cs =>
    if !cs.isEmpty && cs.all Char.isDigit then some (-(pyDigits cs : Int))
    else none
  | '+' :: cs =>
    if !cs.isEmpty && cs.all Char.isDigit then some ((pyDigits cs : Int))
    else none
  | cs =>
    if cs.all Char.isDigit then some ((pyDigits cs : Int)) else none

/-- Python line.strip().split(' '), the vals of each load_cps
iteration (fs_merge_control_points.py lines 66-67). -/
def pyVals (line : String) : List String := pySplitSpace (pyStrip line)

/-- State built by the load_cps loop: the accumulated coordinate rows
(still raw tokens; main converts them with np.array(dtype=float)), and
the npnts / use_real_ras variables, none while still unassigned. -/
structure ParseState where
  cps : List (List String)
  npnts : Option Int
  use_real_ras : Option Bool
deriving DecidableEq

/-- One iteration of the load_cps line loop (lines 63-82).  Errors model
the uncaught Python exceptions: IndexError when vals[1] is accessed on a
one-token line, ValueError when int(vals[1]) fails. -/
def processLine (st : ParseState) (line : String) : Except String ParseState :=
  if substrOf "numpoints" ((pyVals line).headD "") then
    match (pyVals line)[1]? with
    | none => .error "IndexError: list index out of range"
    | some v1 =>
      match pyInt? v1 with
      | none => .error "ValueError: invalid literal for int"
      | some n => .ok { st with npnts := some n }
  else if substrOf "useRealRAS" ((pyVals line).headD "") then
    match (pyVals line)[1]? with
    | none => .error "IndexError: list index out of range"
    | some v1 => .ok { st with use_real_ras := some (pyBool v1) }
  else if substrOf "info" ((pyVals line).headD "") then
    .ok st
  else if (pyVals line).length == 3 then
    .ok { st with cps := st.cps ++ [pyVals line] }
  else
    .ok st

/-- load_cps over the decoded lines of the file (I/O and decode errors
of the surrounding try block are outside this model). -/
def load_cps (lines : List String) : Except String ParseState :=
  lines.foldlM processLine ⟨[], none, none⟩

/-- Whether a line is handled by the useRealRAS branch: its first token
contains useRealRAS and is not already caught by the numpoints branch. -/
def setsFlagLine (line : String) : Bool :=
  !(substrOf "numpoints" ((pyVals line).headD "")) &&
    substrOf "useRealRAS" ((pyVals line).headD "")

/-- The token whose bool() becomes the flag value, vals[1]. -/
def flagValueTok (line : String) : Option String := (pyVals line)[1]?

lemma pyBool_of_ne (v : String) (h : v ≠ "") : pyBool v = true := by
  unfold pyBool
  simp [h]

lemma processLine_flag_set (st : ParseState) (line : String)
    (h : setsFlagLine line = true) (v : String)
    (hv : flagValueTok line = some v) :
    processLine st line = .ok { st with use_real_ras := some (pyBool v) } := by
  unfold setsFlagLine at h
  rw [Bool.and_eq_true, Bool.not_eq_true'] at h
  unfold flagValueTok at hv
  simp only [processLine, h.1, h.2, hv, Bool.false_eq_true, if_false, if_true]

lemma processLine_flag_preserved (st : ParseState) (line : String)
    (h : setsFlagLine line = false) (st2 : ParseState)
    (hok : processLine st line = .ok st2) :
    st2.use_real_ras = st.use_real_ras := by
  unfold processLine at hok
  split at hok
  · split at hok
    · exact Except.noConfusion hok
    · split at hok
      · exact Except.noConfusion hok
      · injection hok with h2
        subst h2
        rfl
  · split at hok
    · exfalso
      rename_i h1 h2
      have hc1 : substrOf "numpoints" ((pyVals line).headD "") = false := by
        simpa using h1
      unfold setsFlagLine at h
      rw [hc1, h2] at h
      simp at h
    · split at hok
      · injection hok with h2
        subst h2
        rfl
      · split at hok
        · injection hok with h2
          subst h2
          rfl
        · injection hok with h2
          subst h2
          rfl

lemma load_flag_aux (lines : List String)
    (hval : ∀ l ∈ lines, setsFlagLine l = true → (flagValueTok l).getD "" ≠ "") :
    ∀ st st' : ParseState, lines.foldlM processLine st = .ok st' →
      st'.use_real_ras
        = (if lines.any setsFlagLine then some true else st.use_real_ras) := by
  induction lines with
  | nil =>
    intro st st' hok
    rw [List.foldlM_nil] at hok
    have hst : st = st' := by injection hok
    subst hst
    simp
  | cons l ls ih =>
    intro st st' hok
    rw [List.foldlM_cons] at hok
    cases hpl : processLine st l with
    | error e =>
      rw [hpl] at hok
      exact Except.noConfusion hok
    | ok st1 =>
      rw [hpl] at hok
      have hok2 : ls.foldlM processLine st1 = .ok st' := hok
      have hvtail : ∀ z ∈ ls, setsFlagLine z = true →
          (flagValueTok z).getD "" ≠ "" :=
        fun z hz => hval z (List.mem_cons_of_mem l hz)
      by_cases hf : setsFlagLine l = true
      · have hv := hval l (List.mem_cons_self l ls) hf
        cases e : flagValueTok l with
        | none => rw [e] at hv; simp at hv
        | some v =>
          have hvne : v ≠ "" := by rw [e] at hv; simpa using hv
          have hps := processLine_flag_set st l hf v e
          rw [hps] at hpl
          injection hpl with h1
          have hflag1 : st1.use_real_ras = some true := by
            rw [← h1, pyBool_of_ne v hvne]
          have hrec := ih hvtail st1 st' hok2
          rw [hrec]
          by_cases hany : ls.any setsFlagLine = true
          · simp [hany, List.any_cons, hf]
          · have hany' : ls.any setsFlagLine = false := by simpa using hany
            simp [hany', List.any_cons, hf, hflag1]
      · have hf' : setsFlagLine l = false := by simpa using hf
        have hpres := processLine_flag_preserved st l hf' st1 hpl
        have hrec := ih hvtail st1 st' hok2
        rw [hrec, hpres, List.any_cons, hf']
        simp

/-- C4: for any two control-point files that each contain a
useRealRAS line, where every such line carries a non-empty value token
(the well-formed case, including the declared value 0), a successful
load returns the RAS flag as True on both — bool() of a non-empty
string is always True — and consequently the two files compare as
having equal flags. -/
theorem useRealRAS_flag_always_true (lines1 lines2 : List String)
    (h1any : lines1.any setsFlagLine = true)
    (h2any : lines2.any setsFlagLine = true)
    (h1val : ∀ l ∈ lines1, setsFlagLine l = true →
      (flagValueTok l).getD "" ≠ "")
    (h2val : ∀ l ∈ lines2, setsFlagLine l = true →
      (flagValueTok l).getD "" ≠ "")
    (st1 st2 : ParseState)
    (hld1 : load_cps lines1 = .ok st1) (hld2 : load_cps lines2 = .ok st2) :
    st1.use_real_ras = some true ∧ st2.use_real_ras = some true ∧
      st1.use_real_ras = st2.use_real_ras := by
  have e1 := load_flag_aux lines1 h1val ⟨[], none, none⟩ st1 hld1
  have e2 := load_flag_aux lines2 h2val ⟨[], none, none⟩ st2 hld2
  rw [h1any] at e1
  rw [h2any] at e2
  simp only [if_true] at e1 e2
  exact ⟨e1, e2, by rw [e1, e2]⟩

/-- C4 witness: a file declaring useRealRAS 1 and a file declaring
useRealRAS 0 both load with the flag True, hence equal. -/
theorem useRealRAS_flag_always_true_witness :
    (⟨[["58.4497", "-6.64394", "-14.5253"]], some 9, some true⟩ :
        ParseState).use_real_ras = some true ∧
    (⟨[["58.4497", "-6.64394", "-14.5253"]], some 9, some true⟩ :
        ParseState).use_real_ras = some true ∧
    (⟨[["58.4497", "-6.64394", "-14.5253"]], some 9, some true⟩ :
        ParseState).use_real_ras
      = (⟨[["58.4497", "-6.64394", "-14.5253"]], some 9, some true⟩ :
        ParseState).use_real_ras :=
  useRealRAS_flag_always_true
    ["58.4497 -6.64394 -14.5253", "info", "numpoints 9", "useRealRAS 1"]
    ["58.4497 -6.64394 -14.5253", "info", "numpoints 9", "useRealRAS 0"]
    (by decide) (by decide) (by decide) (by decide)
    ⟨[["58.4497", "-6.64394", "-14.5253"]], some 9, some true⟩
    ⟨[["58.4497", "-6.64394", "-14.5253"]], some 9, some true⟩
    rfl rfl

/-- C3 (code bug evaluation): a file declaring useRealRAS 0 and a file
declaring useRealRAS 1 both load with use_real_ras = True, because
bool() is applied to the raw token string; the mismatch guard of main
then compares True with True and the merge silently proceeds to a
merged point set instead of raising the mismatch error. -/
theorem ras_flag_mismatch_undetected :
    load_cps ["58.4497 -6.64394 -14.5253", "info", "numpoints 1",
        "useRealRAS 0"]
      = .ok ⟨[["58.4497", "-6.64394", "-14.5253"]], some 1, some true⟩ ∧
    load_cps ["58.4497 -6.64394 -14.5253", "info", "numpoints 1",
        "useRealRAS 1"]
      = .ok ⟨[["58.4497", "-6.64394", "-14.5253"]], some 1, some true⟩ ∧
    merge ⟨[⟨584497/10000, -664394/100000, -145253/10000⟩], true⟩
        ⟨[⟨584497/10000, -664394/100000, -145253/10000⟩], true⟩
      = .ok ([⟨584497/10000, -664394/100000, -145253/10000⟩], true) :=
  ⟨rfl, rfl, by simp [merge, mergePoints_self]⟩
